import Mathlib

set_option maxRecDepth 100000

/-!
Verification of the song_recommender pipeline (`src/utils/functions.py`):
the artist-name normalizer `clean_artist_name`, the batch-processing loop
`main`, and the genre one-hot encoder `encode_genres`, shallowly embedded
in Lean.

Python strings are modelled as `List Char`.  The external metadata
service (the `spotipy` search wrapped by `get_track_features`) is an
oracle parameter `lookup`, indexed by the row position, whose result is
`success` (a features record of abstract type `F`), `noMatch` (the search
returned no items, `get_track_features` returned `None`) or `error` (the
call raised an exception, which `main` catches).  File writes are
recorded in the state: `batches` is the list of persisted batch files
(batch number paired with the rows written), `failed` the rows of the
failure file.  The 30-second pause and the log prints do not change this
state and are omitted.
-/

namespace SongRec

/-! ## NameNormalizer: `clean_artist_name` -/

/-- The six ASCII whitespace characters stripped by Python `str.strip()`. -/
def pyIsSpace (c : Char) : Bool :=
  c = ' ' || c = '\t' || c = '\n' || c = '\x0b' || c = '\x0c' || c = '\r'

/-- Python `s.strip()`: drop whitespace from both ends. -/
def pyStrip (s : List Char) : List Char :=
  ((s.dropWhile pyIsSpace).reverse.dropWhile pyIsSpace).reverse

/-- Python `s.split(d)[0]`: the text preceding the first occurrence of `d`
in `s` (all of `s` when `d` does not occur). -/
def beforeFirst (d : List Char) : List Char → List Char
  | [] => []
  | c :: rest => if d.isPrefixOf (c :: rest) then [] else c :: beforeFirst d rest

/-- Python `d in s`: substring test. -/
def containsSub (d : List Char) : List Char → Bool
  | [] => d.isEmpty
  | c :: rest => d.isPrefixOf (c :: rest) || containsSub d rest

/-- The fixed ordered delimiter list of `clean_artist_name`, including the
duplicated final `"And"` of the source. -/
def delimiters : List (List Char) :=
  ["&".toList, "feat.".toList, "featuring".toList, "Featuring".toList,
   "FEATURING".toList, "Feat.".toList, "FEAT.".toList, "ft.".toList,
   "Ft.".toList, "FT.".toList, "/".toList, "with".toList, "WITH".toList,
   "With".toList, ",".toList, "And".toList, "and".toList, "And".toList]

/-- One iteration of the `for delimiter in delimiters` loop body:
`if delimiter in artist_name: artist_name = artist_name.split(delimiter)[0].strip()`. -/
def cleanStep (s d : List Char) : List Char :=
  if containsSub d s then pyStrip (beforeFirst d s) else s

/-- The `for` loop of `clean_artist_name` over a delimiter list. -/
def cleanLoop (ds : List (List Char)) (s : List Char) : List Char :=
  ds.foldl cleanStep s

/-- `clean_artist_name`: run the loop body for every delimiter in order
(the source loop has no break, so every delimiter found in the current,
possibly already truncated, string is applied). -/
def clean_artist_name (s : List Char) : List Char :=
  cleanLoop delimiters s

/-- The normalizer as the spec's words describe it: truncate at the FIRST
delimiter found in scan order, trim, and stop scanning.  Written from the
spec, for comparison with the source-derived `clean_artist_name`. -/
def cleanArtistNameSpec (s : List Char) : List Char :=
  match delimiters.find? (fun d => containsSub d s) with
  | some d => pyStrip (beforeFirst d s)
  | none => s

/-! ## BatchProcessor: `main` -/

/-- One input row of the table handed to `main`: a `Song` and an `Artist`
column. -/
structure Row where
  song : List Char
  artist : List Char
deriving DecidableEq

/-- Outcome of one `get_track_features` call as observed by `main`:
`success` carries the features record, `noMatch` is the `None` return
(empty search result), `error` is a raised exception. -/
inductive LookupResult (F : Type) where
  | success (features : F)
  | noMatch
  | error
deriving DecidableEq

/-- An entry of `failed_tracks`, as built on line 144 of the source:
`{'track_name': row['Song'], 'artist_name': row['Artist']}`. -/
structure Failed where
  track_name : List Char
  artist_name : List Char
deriving DecidableEq

/-- The mutable state of `main`: the in-memory accumulators plus the
files written so far (`batches`: batch number and rows of each persisted
batch file). -/
structure MainState (F : Type) where
  currentBatch : List (Row × F)
  batches : List (Nat × List (Row × F))
  failed : List Failed
  batchNumber : Nat
  processedCount : Nat
deriving DecidableEq

/-- The initial state of `main`: empty accumulators, `batch_number = 51`,
`processed_count = 0`. -/
def initState {F : Type} : MainState F :=
  { currentBatch := [], batches := [], failed := [], batchNumber := 51,
    processedCount := 0 }

/-- Flushing the current batch: `batch_number += 1`, write
`songs_batch_{batch_number}.csv` with the rows of `current_batch`, clear
`current_batch`. -/
def flushBatch {F : Type} (st : MainState F) : MainState F :=
  { st with
    batchNumber := st.batchNumber + 1,
    batches := st.batches ++ [(st.batchNumber + 1, st.currentBatch)],
    currentBatch := [] }

/-- The body of the row loop of `main` for the row at position `i` of an
`n`-row table: clean the artist, call the lookup, then either drop the
row (caught exception), enrich and batch it (flushing at 50 rows or at
the last row), or record it in `failed_tracks` (no match). -/
def processRow {F : Type} (lookup : Nat → List Char → List Char → LookupResult F)
    (n i : Nat) (r : Row) (st : MainState F) : MainState F :=
  match lookup i r.song (clean_artist_name r.artist) with
  | LookupResult.error =>
      { st with processedCount := st.processedCount + 1 }
  | LookupResult.noMatch =>
      { st with processedCount := st.processedCount + 1,
                failed := st.failed ++ [⟨r.song, r.artist⟩] }
  | LookupResult.success f =>
      let st1 := { st with processedCount := st.processedCount + 1 }
      let cb := st1.currentBatch ++ [(r, f)]
      if cb.length = 50 ∨ i = n - 1 then
        flushBatch { st1 with currentBatch := cb }
      else
        { st1 with currentBatch := cb }

/-- The row loop of `main`, `i` the position of the first row of the
remaining suffix, `n` the total number of rows. -/
def mainLoop {F : Type} (lookup : Nat → List Char → List Char → LookupResult F)
    (n : Nat) : List Row → Nat → MainState F → MainState F
  | [], _, st => st
  | r :: rs, i, st => mainLoop lookup n rs (i + 1) (processRow lookup n i r st)

/-- `main`: run the row loop over the whole table from the initial state,
then flush any remaining partial batch. -/
def main {F : Type} (lookup : Nat → List Char → List Char → LookupResult F)
    (rows : List Row) : MainState F :=
  let st := mainLoop lookup rows.length rows 0 initState
  if st.currentBatch.isEmpty then st else flushBatch st

/-- `true` exactly when `main` writes `failed_tracks.csv`
(`if failed_tracks:` on line 153). -/
def failedFileWritten {F : Type} (st : MainState F) : Bool :=
  !st.failed.isEmpty

/-- Whether a lookup outcome is a success. -/
def isSuccess {F : Type} : LookupResult F → Bool
  | LookupResult.success _ => true
  | LookupResult.noMatch => false
  | LookupResult.error => false

/-- The enriched rows of the suffix of the input starting at position
`i`, in input order: one `(row, features)` pair per successful lookup. -/
def succFrom {F : Type} (lookup : Nat → List Char → List Char → LookupResult F) :
    Nat → List Row → List (Row × F)
  | _, [] => []
  | i, r :: rs =>
    match lookup i r.song (clean_artist_name r.artist) with
    | LookupResult.success f => (r, f) :: succFrom lookup (i + 1) rs
    | LookupResult.noMatch => succFrom lookup (i + 1) rs
    | LookupResult.error => succFrom lookup (i + 1) rs

/-- The `failed_tracks` entries of the suffix of the input starting at
position `i`, in input order: one entry per no-match lookup, holding the
row's original `Song` and `Artist` strings. -/
def failFrom {F : Type} (lookup : Nat → List Char → List Char → LookupResult F) :
    Nat → List Row → List Failed
  | _, [] => []
  | i, r :: rs =>
    match lookup i r.song (clean_artist_name r.artist) with
    | LookupResult.success _ => failFrom lookup (i + 1) rs
    | LookupResult.noMatch => ⟨r.song, r.artist⟩ :: failFrom lookup (i + 1) rs
    | LookupResult.error => failFrom lookup (i + 1) rs

/-- The rows of the suffix starting at position `i` whose lookup raised a
caught exception (silently dropped by `main`). -/
def errFrom {F : Type} (lookup : Nat → List Char → List Char → LookupResult F) :
    Nat → List Row → List Row
  | _, [] => []
  | i, r :: rs =>
    match lookup i r.song (clean_artist_name r.artist) with
    | LookupResult.success _ => errFrom lookup (i + 1) rs
    | LookupResult.noMatch => errFrom lookup (i + 1) rs
    | LookupResult.error => r :: errFrom lookup (i + 1) rs

/-! ## GenreEncoder: `encode_genres` -/

/-- One cell of the genre column: either a textual serialization of a
genre list (handed to `ast.literal_eval`) or an already parsed list. -/
inductive Cell (α : Type) where
  | text (s : List Char)
  | lst (l : List α)

/-- Line 162 of the source, per cell: `ast.literal_eval(x) if
isinstance(x, str) else x`, with `parse` the oracle modelling
`ast.literal_eval` on genre-list serializations. -/
def parseCell {α : Type} (parse : List Char → List α) : Cell α → List α
  | Cell.text s => parse s
  | Cell.lst l => l

/-- `MultiLabelBinarizer().fit` classes: the distinct genre labels across
all rows, in sorted order. -/
def mlbClasses {α : Type} [LinearOrder α] (col : List (List α)) : List α :=
  List.insertionSort (fun a b => a ≤ b) col.flatten.dedup

/-- One row of the `MultiLabelBinarizer` transform: for each class in
order, `1` if the row's genre list holds it, else `0`. -/
def mlbIndicator {α : Type} [DecidableEq α] (classes gs : List α) : List Nat :=
  classes.map (fun c => if c ∈ gs then 1 else 0)

/-- Decoding an indicator row: the classes whose indicator value is `1`. -/
def onesOf {α : Type} (classes : List α) (v : List Nat) : List α :=
  (classes.zip v).filterMap (fun p => if p.2 = 1 then some p.1 else none)

/-- The value of `encode_genres`: the input table after the in-place
genre-column mutation of line 162 (`mutatedInput`), the indicator column
labels (`genreClasses`), and the returned `result_df` (`table`), whose
rows hold the pre-existing columns (`β` abstracts all non-genre columns),
the parsed genre list, and the indicator row. -/
structure EncodeResult (β α : Type) where
  mutatedInput : List (β × List α)
  genreClasses : List α
  table : List (β × List α × List Nat)

/-- `encode_genres`: parse the genre column in place, fit the binarizer
over all rows, and concatenate the indicator columns onto the table. -/
def encode_genres {β α : Type} [LinearOrder α] (parse : List Char → List α)
    (rows : List (β × Cell α)) : EncodeResult β α :=
  let mutated := rows.map (fun p => (p.1, parseCell parse p.2))
  let classes := mlbClasses (mutated.map Prod.snd)
  { mutatedInput := mutated,
    genreClasses := classes,
    table := mutated.map (fun p => (p.1, p.2, mlbIndicator classes p.2)) }

/-! ## Concrete inputs used by the witnesses -/

/-- An oracle for which every lookup succeeds. -/
def lookupAllOk : Nat → List Char → List Char → LookupResult Nat :=
  fun _ _ _ => LookupResult.success 0

/-- An oracle for which every lookup raises a caught exception. -/
def lookupAllErr : Nat → List Char → List Char → LookupResult Nat :=
  fun _ _ _ => LookupResult.error

/-- An oracle for which every lookup returns no match. -/
def lookupAllMiss : Nat → List Char → List Char → LookupResult Nat :=
  fun _ _ _ => LookupResult.noMatch

/-- A 51-row input table. -/
def rows51 : List Row :=
  List.replicate 51 ⟨"song".toList, "artist".toList⟩

/-- A single row whose raw artist string holds a delimiter. -/
def rowAmp : Row :=
  ⟨"Song".toList, "A & B".toList⟩

/-- A trivial parse oracle over `Nat` genre labels. -/
def parseNatW : List Char → List Nat := fun _ => []

/-- A two-row genre table with already-parsed genre lists. -/
def rowsGenW : List (Nat × Cell Nat) :=
  [(0, Cell.lst [2, 1]), (1, Cell.lst [1])]

/-! ## Theorems: NameNormalizer -/

/-- Splitting the delimiter loop of `clean_artist_name` at any point. -/
theorem cleanLoop_append (ds₁ ds₂ : List (List Char)) (s : List Char) :
    cleanLoop (ds₁ ++ ds₂) s = cleanLoop ds₂ (cleanLoop ds₁ s) :=
  List.foldl_append cleanStep s ds₁ ds₂

/-- Delimiters that do not occur in the string leave it unchanged. -/
theorem cleanLoop_of_not_contains :
    ∀ (ds : List (List Char)) (s : List Char),
    (∀ d ∈ ds, containsSub d s = false) → cleanLoop ds s = s := by
  intro ds
  induction ds with
  | nil => intro s _; rfl
  | cons d ds ih =>
    intro s h
    show cleanLoop ds (cleanStep s d) = s
    have hd : containsSub d s = false := h d (List.mem_cons_self d ds)
    rw [cleanStep, hd]
    simp only [Bool.false_eq_true, if_false]
    exact ih s (fun e he => h e (List.mem_cons_of_mem d he))

/-- C2 (amended): when the delimiters listed before `d` do not occur in
the artist string and `d` does, `clean_artist_name` truncates the string
to the text preceding the first occurrence of `d`, trims whitespace, and
then CONTINUES the scan: the remaining, later-listed delimiters are
applied to the already-truncated result (the source loop has no break). -/
theorem clean_artist_name_first_hit_then_continues
    (s : List Char) (ds₁ ds₂ : List (List Char)) (d : List Char)
    (hsplit : delimiters = ds₁ ++ d :: ds₂)
    (h₁ : ∀ e ∈ ds₁, containsSub e s = false)
    (h₂ : containsSub d s = true) :
    clean_artist_name s = cleanLoop ds₂ (pyStrip (beforeFirst d s)) := by
  rw [clean_artist_name, hsplit, cleanLoop_append,
      cleanLoop_of_not_contains ds₁ s h₁]
  show cleanLoop ds₂ (cleanStep s d) = _
  rw [cleanStep, h₂]
  simp only [if_true]

/-- Witness for `clean_artist_name_first_hit_then_continues`: on
`"Sandra & Bob"` the first delimiter found is `"&"`, and the remaining
delimiters run on the trimmed prefix `"Sandra"` (which the later
delimiter `"and"` then cuts down to `"S"`). -/
theorem clean_artist_name_first_hit_then_continues_witness :
    clean_artist_name "Sandra & Bob".toList
      = cleanLoop
          ["feat.".toList, "featuring".toList, "Featuring".toList,
           "FEATURING".toList, "Feat.".toList, "FEAT.".toList, "ft.".toList,
           "Ft.".toList, "FT.".toList, "/".toList, "with".toList,
           "WITH".toList, "With".toList, ",".toList, "And".toList,
           "and".toList, "And".toList]
          (pyStrip (beforeFirst "&".toList "Sandra & Bob".toList)) :=
  clean_artist_name_first_hit_then_continues "Sandra & Bob".toList []
    ["feat.".toList, "featuring".toList, "Featuring".toList,
     "FEATURING".toList, "Feat.".toList, "FEAT.".toList, "ft.".toList,
     "Ft.".toList, "FT.".toList, "/".toList, "with".toList,
     "WITH".toList, "With".toList, ",".toList, "And".toList,
     "and".toList, "And".toList]
    "&".toList (by decide) (by decide) (by decide)

/-- Counterexample to C2 as stated: on `"Sandra & Bob"` the scan does not
stop after the first delimiter found (`"&"`).  Stopping there, as the
spec describes (`cleanArtistNameSpec`), yields `"Sandra"`; the source
continues the scan and the later-listed delimiter `"and"` truncates the
already-truncated result to `"S"`. -/
theorem clean_artist_name_not_first_match_only :
    containsSub "&".toList "Sandra & Bob".toList = true ∧
    cleanArtistNameSpec "Sandra & Bob".toList = "Sandra".toList ∧
    clean_artist_name "Sandra & Bob".toList = "S".toList ∧
    clean_artist_name "Sandra & Bob".toList
      ≠ cleanArtistNameSpec "Sandra & Bob".toList := by
  refine ⟨by decide, by decide, by decide, by decide⟩

/-- C8 (amended): an artist string containing none of the delimiter
tokens is returned unchanged — the strict identity, with no whitespace
trimming (the source only calls `.strip()` after a split on a found
delimiter). -/
theorem clean_artist_name_no_delims_identity
    (s : List Char) (h : ∀ d ∈ delimiters, containsSub d s = false) :
    clean_artist_name s = s :=
  cleanLoop_of_not_contains delimiters s h

/-- Witness for `clean_artist_name_no_delims_identity` at `"ABBA"`. -/
theorem clean_artist_name_no_delims_identity_witness :
    clean_artist_name "ABBA".toList = "ABBA".toList :=
  clean_artist_name_no_delims_identity "ABBA".toList (by decide)

/-- Counterexample to C8 as stated: `" X "` contains no delimiter token,
and `clean_artist_name` returns it unchanged — NOT trimmed of its
surrounding whitespace as the claim says. -/
theorem clean_artist_name_no_delims_not_trimmed :
    (∀ d ∈ delimiters, containsSub d " X ".toList = false) ∧
    clean_artist_name " X ".toList = " X ".toList ∧
    pyStrip " X ".toList = "X".toList ∧
    clean_artist_name " X ".toList ≠ pyStrip " X ".toList := by
  refine ⟨by decide, by decide, by decide, by decide⟩

/-! ## Theorems: BatchProcessor -/

/-- `dropLast` distributes over a cons with a nonempty tail. -/
theorem dropLast_cons_of_ne_nil {α : Type} (x : α) {l : List α} (h : l ≠ []) :
    (x :: l).dropLast = x :: l.dropLast := by
  cases l with
  | nil => exact absurd rfl h
  | cons y ys => rfl

/-- Invariant of the row loop of `main`, running over the suffix `rows`
that starts at position `i` of an `n`-row table: the loop appends a block
`new` of batch files whose contents, followed by the final partial batch,
are exactly the enriched successful rows in input order; the failure
accumulator grows by exactly the no-match rows; batch numbers continue
consecutively from the entry counter; every flushed batch holds 1..50
rows, all but the last hold exactly 50, and a final nonempty partial
batch forces every flushed batch to hold exactly 50; the partial batch
stays below 50; and `processed_count` grows once per row. -/
theorem mainLoop_spec {F : Type}
    (lookup : Nat → List Char → List Char → LookupResult F) (n : Nat) :
    ∀ (rows : List Row) (i : Nat) (st : MainState F),
    i + rows.length = n →
    st.currentBatch.length < 50 →
    ∃ new : List (Nat × List (Row × F)),
      (mainLoop lookup n rows i st).batches = st.batches ++ new ∧
      (new.map Prod.snd).flatten ++ (mainLoop lookup n rows i st).currentBatch
        = st.currentBatch ++ succFrom lookup i rows ∧
      (mainLoop lookup n rows i st).failed = st.failed ++ failFrom lookup i rows ∧
      new.map Prod.fst = List.range' (st.batchNumber + 1) new.length ∧
      (mainLoop lookup n rows i st).batchNumber = st.batchNumber + new.length ∧
      (∀ b ∈ new, 1 ≤ (Prod.snd b).length ∧ (Prod.snd b).length ≤ 50) ∧
      (∀ b ∈ new.dropLast, (Prod.snd b).length = 50) ∧
      ((mainLoop lookup n rows i st).currentBatch ≠ [] →
        ∀ b ∈ new, (Prod.snd b).length = 50) ∧
      (mainLoop lookup n rows i st).currentBatch.length < 50 ∧
      (mainLoop lookup n rows i st).processedCount
        = st.processedCount + rows.length := by
  intro rows
  induction rows with
  | nil =>
    intro i st _ hcb
    exact ⟨[], by simp [mainLoop], by simp [mainLoop, succFrom],
      by simp [mainLoop, failFrom], rfl, by simp [mainLoop],
      by simp, by simp, fun _ => by simp,
      by simpa [mainLoop] using hcb, by simp [mainLoop]⟩
  | cons r rs ih =>
    intro i st hn hcb
    simp only [List.length_cons] at hn
    cases hl : lookup i r.song (clean_artist_name r.artist) with
    | error =>
      have hrun : mainLoop lookup n (r :: rs) i st
          = mainLoop lookup n rs (i + 1)
              { st with processedCount := st.processedCount + 1 } := by
        simp only [mainLoop, processRow, hl]
      rw [hrun]
      obtain ⟨new, hb, hj, hf, hid, hbn, hsz, hdl, hC, hcb2, hpc⟩ :=
        ih (i + 1) { st with processedCount := st.processedCount + 1 }
          (by omega) hcb
      refine ⟨new, hb, ?_, ?_, hid, hbn, hsz, hdl, hC, hcb2, ?_⟩
      · simpa [succFrom, hl] using hj
      · simpa [failFrom, hl] using hf
      · rw [hpc]; simp only [List.length_cons]; omega
    | noMatch =>
      have hrun : mainLoop lookup n (r :: rs) i st
          = mainLoop lookup n rs (i + 1)
              { st with processedCount := st.processedCount + 1,
                        failed := st.failed ++ [⟨r.song, r.artist⟩] } := by
        simp only [mainLoop, processRow, hl]
      rw [hrun]
      obtain ⟨new, hb, hj, hf, hid, hbn, hsz, hdl, hC, hcb2, hpc⟩ :=
        ih (i + 1)
          { st with processedCount := st.processedCount + 1,
                    failed := st.failed ++ [⟨r.song, r.artist⟩] }
          (by omega) hcb
      refine ⟨new, hb, ?_, ?_, hid, hbn, hsz, hdl, hC, hcb2, ?_⟩
      · simpa [succFrom, hl] using hj
      · rw [hf]; simp [failFrom, hl]
      · rw [hpc]; simp only [List.length_cons]; omega
    | success f =>
      cases rs with
      | nil =>
        simp only [List.length_nil] at hn
        have hi : i = n - 1 := by omega
        have hrun : mainLoop lookup n [r] i st
            = { currentBatch := [],
                batches := st.batches
                  ++ [(st.batchNumber + 1, st.currentBatch ++ [(r, f)])],
                failed := st.failed,
                batchNumber := st.batchNumber + 1,
                processedCount := st.processedCount + 1 } := by
          simp only [mainLoop, processRow, hl, if_pos (Or.inr hi), flushBatch]
        rw [hrun]
        refine ⟨[(st.batchNumber + 1, st.currentBatch ++ [(r, f)])],
          rfl, ?_, ?_, ?_, rfl, ?_, ?_, ?_, ?_, rfl⟩
        · simp [succFrom, hl]
        · simp [failFrom, hl]
        · simp [List.range'_one]
        · intro b hb
          rcases List.mem_singleton.mp hb with rfl
          refine ⟨?_, ?_⟩ <;>
            simp only [List.length_append, List.length_cons, List.length_nil] <;>
            omega
        · simp
        · intro h; exact absurd rfl h
        · simp
      | cons r2 rs2 =>
        simp only [List.length_cons] at hn
        have hne : i ≠ n - 1 := by omega
        by_cases hfull : (st.currentBatch ++ [(r, f)]).length = 50
        · have hlen : st.currentBatch.length + 1 = 50 := by
            simpa using hfull
          have hrun : mainLoop lookup n (r :: r2 :: rs2) i st
              = mainLoop lookup n (r2 :: rs2) (i + 1)
                  { currentBatch := [],
                    batches := st.batches
                      ++ [(st.batchNumber + 1, st.currentBatch ++ [(r, f)])],
                    failed := st.failed,
                    batchNumber := st.batchNumber + 1,
                    processedCount := st.processedCount + 1 } := by
            simp only [mainLoop, processRow, hl, if_pos (Or.inl hfull), flushBatch]
          rw [hrun]
          obtain ⟨new, hb, hj, hf, hid, hbn, hsz, hdl, hC, hcb2, hpc⟩ :=
            ih (i + 1)
              { currentBatch := [],
                batches := st.batches
                  ++ [(st.batchNumber + 1, st.currentBatch ++ [(r, f)])],
                failed := st.failed,
                batchNumber := st.batchNumber + 1,
                processedCount := st.processedCount + 1 }
              (by simp only [List.length_cons]; omega)
              (by simp)
          refine ⟨(st.batchNumber + 1, st.currentBatch ++ [(r, f)]) :: new,
            ?_, ?_, ?_, ?_, ?_, ?_, ?_, ?_, hcb2, ?_⟩
          · rw [hb]; simp
          · simp only [List.map_cons, List.flatten_cons, List.append_assoc]
            rw [hj]
            simp [succFrom, hl]
          · rw [hf]; simp [failFrom, hl]
          · simp only [List.map_cons, List.length_cons, List.range'_succ]
            rw [hid]
          · rw [hbn]
            show st.batchNumber + 1 + new.length
              = st.batchNumber + (new.length + 1)
            omega
          · intro b hb2
            rcases List.mem_cons.mp hb2 with rfl | hmem
            · refine ⟨?_, ?_⟩ <;>
                simp only [List.length_append, List.length_cons, List.length_nil] <;>
                omega
            · exact hsz b hmem
          · rcases List.eq_nil_or_concat new with rfl | ⟨ys, y, rfl⟩
            · simp
            · rw [dropLast_cons_of_ne_nil _ (by simp)]
              intro b hb2
              rcases List.mem_cons.mp hb2 with rfl | hmem
              · exact hfull
              · exact hdl b hmem
          · intro h b hb2
            rcases List.mem_cons.mp hb2 with rfl | hmem
            · exact hfull
            · exact hC h b hmem
          · rw [hpc]
            show st.processedCount + 1 + (r2 :: rs2).length
              = st.processedCount + (r2 :: rs2).length.succ
            simp only [List.length_cons, Nat.succ_eq_add_one]
            omega
        · have hrun : mainLoop lookup n (r :: r2 :: rs2) i st
              = mainLoop lookup n (r2 :: rs2) (i + 1)
                  { st with processedCount := st.processedCount + 1,
                            currentBatch := st.currentBatch ++ [(r, f)] } := by
            simp only [mainLoop, processRow, hl,
              if_neg (not_or.mpr ⟨hfull, hne⟩)]
          rw [hrun]
          obtain ⟨new, hb, hj, hf, hid, hbn, hsz, hdl, hC, hcb2, hpc⟩ :=
            ih (i + 1)
              { st with processedCount := st.processedCount + 1,
                        currentBatch := st.currentBatch ++ [(r, f)] }
              (by simp only [List.length_cons]; omega)
              (by simp only [List.length_append, List.length_cons, List.length_nil]
                    at hfull ⊢
                  omega)
          refine ⟨new, hb, ?_, ?_, hid, hbn, hsz, hdl, hC, hcb2, ?_⟩
          · rw [hj]; simp [succFrom, hl]
          · simpa [failFrom, hl] using hf
          · rw [hpc]; simp only [List.length_cons]; omega

/-- Summary of a full run of `main`: the persisted batch files flatten to
exactly the enriched successful rows in input order; the failure file
holds exactly the no-match rows in input order; batch numbers are
`52, 53, ...` consecutively; the final `batch_number` counter is `51`
plus the number of flushes; every batch file holds 1..50 rows and all but
the last hold exactly 50; no partial batch remains; and every row was
counted as processed. -/
theorem main_spec {F : Type}
    (lookup : Nat → List Char → List Char → LookupResult F) (rows : List Row) :
    ((main lookup rows).batches.map Prod.snd).flatten = succFrom lookup 0 rows ∧
    (main lookup rows).failed = failFrom lookup 0 rows ∧
    (main lookup rows).batches.map Prod.fst
      = List.range' 52 (main lookup rows).batches.length ∧
    (main lookup rows).batchNumber = 51 + (main lookup rows).batches.length ∧
    (∀ b ∈ (main lookup rows).batches,
      1 ≤ (Prod.snd b).length ∧ (Prod.snd b).length ≤ 50) ∧
    (∀ b ∈ (main lookup rows).batches.dropLast, (Prod.snd b).length = 50) ∧
    (main lookup rows).currentBatch = [] ∧
    (main lookup rows).processedCount = rows.length := by
  obtain ⟨new, hb, hj, hf, hid, hbn, hsz, hdl, hC, hcb2, hpc⟩ :=
    mainLoop_spec lookup rows.length rows 0 initState (by omega)
      (by simp [initState])
  simp only [show (initState : MainState F).batches = [] from rfl,
    show (initState : MainState F).currentBatch = [] from rfl,
    show (initState : MainState F).batchNumber = 51 from rfl,
    show (initState : MainState F).processedCount = 0 from rfl,
    List.nil_append, List.append_nil, Nat.zero_add] at hb hj hf hid hbn hpc
  cases hemp : (mainLoop lookup rows.length rows 0 initState).currentBatch with
  | nil =>
    have hmain : main lookup rows = mainLoop lookup rows.length rows 0 initState := by
      simp only [main, hemp, List.isEmpty_nil, if_true]
    rw [hemp] at hj
    have hid52 : List.map Prod.fst new = List.range' 52 new.length := hid
    rw [hmain, hb]
    exact ⟨by simpa using hj, hf, hid52, by omega, hsz, hdl, hemp, hpc⟩
  | cons e es =>
    have hne : (mainLoop lookup rows.length rows 0 initState).currentBatch ≠ [] := by
      rw [hemp]; exact List.cons_ne_nil e es
    have hmain : main lookup rows
        = flushBatch (mainLoop lookup rows.length rows 0 initState) := by
      simp only [main, hemp, List.isEmpty_cons, Bool.false_eq_true, if_false]
    have hball : ∀ b ∈ new, (Prod.snd b).length = 50 := hC hne
    have hid52 : List.map Prod.fst new = List.range' 52 new.length := hid
    have hbatches : (flushBatch (mainLoop lookup rows.length rows 0 initState)).batches
        = new ++ [(52 + new.length,
            (mainLoop lookup rows.length rows 0 initState).currentBatch)] := by
      simp only [flushBatch, hb, hbn]
      have harith : 51 + new.length + 1 = 52 + new.length := by omega
      rw [harith]
    rw [hmain]
    refine ⟨?_, hf, ?_, ?_, ?_, ?_, rfl, hpc⟩
    · rw [hbatches]
      simp only [List.map_append, List.flatten_append, List.map_cons,
        List.map_nil, List.flatten_cons, List.flatten_nil, List.append_nil]
      exact hj
    · rw [hbatches]
      simp [hid52, List.range'_concat]
    · rw [hbatches]
      show (mainLoop lookup rows.length rows 0 initState).batchNumber + 1 = _
      rw [hbn]
      simp only [List.length_append, List.length_cons, List.length_nil]
      omega
    · intro b hbmem
      rw [hbatches] at hbmem
      rcases List.mem_append.mp hbmem with hmem | hmem
      · exact hsz b hmem
      · rcases List.mem_singleton.mp hmem with rfl
        refine ⟨?_, Nat.le_of_lt hcb2⟩
        rw [hemp]
        simp
    · rw [hbatches, List.dropLast_concat]
      exact hball

/-- Sum of a constant function over a list. -/
theorem sum_map_const_of_mem {α : Type} (l : List α) (f : α → Nat) (c : Nat)
    (h : ∀ x ∈ l, f x = c) : (l.map f).sum = c * l.length := by
  induction l with
  | nil => simp
  | cons x xs ih =>
    simp only [List.map_cons, List.sum_cons, List.length_cons]
    rw [h x (List.mem_cons_self x xs),
      ih (fun y hy => h y (List.mem_cons_of_mem x hy)), Nat.mul_succ]
    omega

/-- The number of batch files `main` persists is the number of successful
rows divided by 50, rounded up. -/
theorem main_batch_count {F : Type}
    (lookup : Nat → List Char → List Char → LookupResult F) (rows : List Row) :
    (main lookup rows).batches.length
      = ((succFrom lookup 0 rows).length + 49) / 50 := by
  obtain ⟨hj, -, -, -, hsz, hdl, -, -⟩ := main_spec lookup rows
  have hS : (succFrom lookup 0 rows).length
      = (((main lookup rows).batches.map Prod.snd).map List.length).sum := by
    rw [← hj, List.length_flatten]
  rcases List.eq_nil_or_concat ((main lookup rows).batches) with hnil | ⟨ys, y, hconc⟩
  · rw [hnil] at hS ⊢
    simp only [List.map_nil, List.sum_nil] at hS
    simp only [List.length_nil]
    omega
  · rw [List.concat_eq_append] at hconc
    have hys : ∀ b ∈ ys, (Prod.snd b).length = 50 := by
      intro b hbmem
      apply hdl
      rw [hconc, List.dropLast_concat]
      exact hbmem
    have hysum : ((ys.map Prod.snd).map List.length).sum = 50 * ys.length := by
      rw [List.map_map]
      exact sum_map_const_of_mem ys _ 50 hys
    have hy : 1 ≤ (Prod.snd y).length ∧ (Prod.snd y).length ≤ 50 := by
      apply hsz
      rw [hconc]
      exact List.mem_append_right ys (List.mem_singleton.mpr rfl)
    rw [hconc] at hS ⊢
    simp only [List.map_append, List.sum_append, List.map_cons, List.map_nil,
      List.sum_cons, List.sum_nil, List.length_append, List.length_cons,
      List.length_nil] at hS ⊢
    rw [hysum] at hS
    omega

/-- Every row of the input has exactly one of the three outcomes: its
lookup succeeded, returned no match, or raised a caught exception. -/
theorem outcome_partition {F : Type}
    (lookup : Nat → List Char → List Char → LookupResult F) :
    ∀ (i : Nat) (rows : List Row),
    (succFrom lookup i rows).length + (failFrom lookup i rows).length
      + (errFrom lookup i rows).length = rows.length := by
  intro i rows
  induction rows generalizing i with
  | nil => simp [succFrom, failFrom, errFrom]
  | cons r rs ih =>
    have h := ih (i + 1)
    cases hl : lookup i r.song (clean_artist_name r.artist) with
    | success f =>
      simp only [succFrom, failFrom, errFrom, hl, List.length_cons]
      omega
    | noMatch =>
      simp only [succFrom, failFrom, errFrom, hl, List.length_cons]
      omega
    | error =>
      simp only [succFrom, failFrom, errFrom, hl, List.length_cons]
      omega

/-- When every lookup succeeds, every row becomes an enriched row. -/
theorem succFrom_length_of_all {F : Type}
    (lookup : Nat → List Char → List Char → LookupResult F)
    (hall : ∀ i s a, isSuccess (lookup i s a) = true) :
    ∀ (i : Nat) (rows : List Row),
    (succFrom lookup i rows).length = rows.length := by
  intro i rows
  induction rows generalizing i with
  | nil => rfl
  | cons r rs ih =>
    have h := hall i r.song (clean_artist_name r.artist)
    cases hl : lookup i r.song (clean_artist_name r.artist) with
    | success f => simp only [succFrom, hl, List.length_cons, ih (i + 1)]
    | noMatch => rw [hl] at h; exact absurd h (by simp [isSuccess])
    | error => rw [hl] at h; exact absurd h (by simp [isSuccess])

/-- When every lookup succeeds, no failure entry is generated. -/
theorem failFrom_nil_of_all {F : Type}
    (lookup : Nat → List Char → List Char → LookupResult F)
    (hall : ∀ i s a, isSuccess (lookup i s a) = true) :
    ∀ (i : Nat) (rows : List Row), failFrom lookup i rows = [] := by
  intro i rows
  induction rows generalizing i with
  | nil => rfl
  | cons r rs ih =>
    have h := hall i r.song (clean_artist_name r.artist)
    cases hl : lookup i r.song (clean_artist_name r.artist) with
    | success f => simp only [failFrom, hl, ih (i + 1)]
    | noMatch => rw [hl] at h; exact absurd h (by simp [isSuccess])
    | error => rw [hl] at h; exact absurd h (by simp [isSuccess])

/-- C1: every input row yields exactly one outcome.  The persisted
batches flatten to exactly the successful rows in input order (so each
successful row lies in exactly one batch, exactly once), the failure
accumulator is exactly the no-match rows in input order (recorded once
each), and success, no-match and caught-exception outcomes partition the
input rows, so no row is in both a batch and the failure set and
exception rows are in neither. -/
theorem main_partitions_rows {F : Type}
    (lookup : Nat → List Char → List Char → LookupResult F) (rows : List Row) :
    ((main lookup rows).batches.map Prod.snd).flatten = succFrom lookup 0 rows ∧
    (main lookup rows).failed = failFrom lookup 0 rows ∧
    (succFrom lookup 0 rows).length + (failFrom lookup 0 rows).length
      + (errFrom lookup 0 rows).length = rows.length := by
  obtain ⟨hj, hf, -, -, -, -, -, -⟩ := main_spec lookup rows
  exact ⟨hj, hf, outcome_partition lookup 0 rows⟩

/-- C3: the number of persisted batch files is `ceil(S / 50)` where `S`
is the number of rows whose lookup succeeded; every batch file holds
between 1 and 50 rows; and every batch file except the last holds
exactly 50. -/
theorem main_batch_count_and_sizes {F : Type}
    (lookup : Nat → List Char → List Char → LookupResult F) (rows : List Row) :
    (main lookup rows).batches.length
      = ((succFrom lookup 0 rows).length + 49) / 50 ∧
    (∀ b ∈ (main lookup rows).batches,
      1 ≤ (Prod.snd b).length ∧ (Prod.snd b).length ≤ 50) ∧
    (∀ b ∈ (main lookup rows).batches.dropLast, (Prod.snd b).length = 50) := by
  obtain ⟨-, -, -, -, hsz, hdl, -, -⟩ := main_spec lookup rows
  exact ⟨main_batch_count lookup rows, hsz, hdl⟩

/-- Witness for `main_batch_count_and_sizes`: a one-row all-success run
persists one batch whose single file holds between 1 and 50 rows. -/
theorem main_batch_count_and_sizes_witness :
    1 ≤ ([((rowAmp : Row), (0 : Nat))] : List (Row × Nat)).length ∧
    ([((rowAmp : Row), (0 : Nat))] : List (Row × Nat)).length ≤ 50 :=
  (main_batch_count_and_sizes lookupAllOk [rowAmp]).2.1
    (52, [(rowAmp, 0)]) (by decide)

/-- C4: the batch counter starts at the configured offset 51, the batch
numbers of the persisted files are the consecutive sequence
`52, 53, ...` (one increment per flush, never per row), and when any
batch is persisted the first one is numbered 52. -/
theorem main_batch_numbering {F : Type}
    (lookup : Nat → List Char → List Char → LookupResult F) (rows : List Row) :
    (initState : MainState F).batchNumber = 51 ∧
    (main lookup rows).batches.map Prod.fst
      = List.range' 52 (main lookup rows).batches.length ∧
    (main lookup rows).batchNumber = 51 + (main lookup rows).batches.length ∧
    ((main lookup rows).batches ≠ [] →
      ((main lookup rows).batches.map Prod.fst).head? = some 52) := by
  obtain ⟨-, -, hid, hbn, -, -, -, -⟩ := main_spec lookup rows
  refine ⟨rfl, hid, hbn, ?_⟩
  intro hne
  rw [hid]
  obtain ⟨k, hk⟩ : ∃ k, (main lookup rows).batches.length = k + 1 :=
    ⟨_, (Nat.succ_pred_eq_of_pos (List.length_pos.mpr hne)).symm⟩
  rw [hk, List.range'_succ]
  rfl

/-- Witness for `main_batch_numbering`: a one-row all-success run
persists a batch, and its number is 52. -/
theorem main_batch_numbering_witness :
    ((main lookupAllOk [rowAmp]).batches.map Prod.fst).head? = some 52 :=
  (main_batch_numbering lookupAllOk [rowAmp]).2.2.2 (by decide)

/-- C6: a row whose lookup raises an exception is caught: the counter of
processed rows is incremented and nothing else changes — no enriched row
is added to the current batch, no batch is flushed, and, unlike the
no-match outcome, no entry is appended to `failed_tracks`. -/
theorem processRow_error_drops_row {F : Type}
    (lookup : Nat → List Char → List Char → LookupResult F)
    (n i : Nat) (r : Row) (st : MainState F) :
    (lookup i r.song (clean_artist_name r.artist) = LookupResult.error →
      processRow lookup n i r st
        = { st with processedCount := st.processedCount + 1 }) ∧
    (lookup i r.song (clean_artist_name r.artist) = LookupResult.noMatch →
      processRow lookup n i r st
        = { st with processedCount := st.processedCount + 1,
                    failed := st.failed ++ [⟨r.song, r.artist⟩] }) := by
  constructor <;> intro h <;> simp only [processRow, h]

/-- Witness for `processRow_error_drops_row`: a caught exception leaves
batches and failures empty and bumps only the processed count. -/
theorem processRow_error_drops_row_witness :
    processRow lookupAllErr 3 0 rowAmp initState
      = { currentBatch := [], batches := [], failed := [], batchNumber := 51,
          processedCount := 1 } :=
  (processRow_error_drops_row lookupAllErr 3 0 rowAmp initState).1 rfl

/-- C9: a no-match row is recorded in `failed_tracks` with the row's
ORIGINAL raw artist string and its original song title — even though the
search itself was issued with the normalized artist name
(`clean_artist_name r.artist`, as the hypothesis shows). -/
theorem processRow_failed_entry_raw_artist {F : Type}
    (lookup : Nat → List Char → List Char → LookupResult F)
    (n i : Nat) (r : Row) (st : MainState F)
    (h : lookup i r.song (clean_artist_name r.artist) = LookupResult.noMatch) :
    (processRow lookup n i r st).failed
      = st.failed ++ [{ track_name := r.song, artist_name := r.artist }] := by
  simp only [processRow, h]

/-- Witness for `processRow_failed_entry_raw_artist`: the failed entry
for the row with artist `"A & B"` stores `"A & B"` itself, although the
query key was the normalized `"A"`. -/
theorem processRow_failed_entry_raw_artist_witness :
    (processRow lookupAllMiss 1 0 rowAmp initState).failed
        = [{ track_name := "Song".toList, artist_name := "A & B".toList }] ∧
    clean_artist_name rowAmp.artist = "A".toList ∧
    clean_artist_name rowAmp.artist ≠ rowAmp.artist :=
  ⟨processRow_failed_entry_raw_artist lookupAllMiss 1 0 rowAmp initState rfl,
   by decide, by decide⟩

/-- C7: on a 51-row input whose lookups all succeed, `main` persists
exactly two batch files — number 52 with 50 rows and number 53 with one
row — and writes no failure file. -/
theorem main_51_rows_two_batches {F : Type}
    (lookup : Nat → List Char → List Char → LookupResult F) (rows : List Row)
    (hlen : rows.length = 51)
    (hall : ∀ i s a, isSuccess (lookup i s a) = true) :
    (main lookup rows).batches.map (fun b => (Prod.fst b, (Prod.snd b).length))
      = [(52, 50), (53, 1)] ∧
    (main lookup rows).failed = [] ∧
    failedFileWritten (main lookup rows) = false := by
  obtain ⟨hj, hf, hid, -, -, hdl, -, -⟩ := main_spec lookup rows
  have hS : (succFrom lookup 0 rows).length = 51 := by
    rw [succFrom_length_of_all lookup hall, hlen]
  have hk : (main lookup rows).batches.length = 2 := by
    rw [main_batch_count lookup rows, hS]
  obtain ⟨b1, b2, hb12⟩ := List.length_eq_two.mp hk
  have hfail : (main lookup rows).failed = [] := by
    rw [hf, failFrom_nil_of_all lookup hall]
  have hids : Prod.fst b1 = 52 ∧ Prod.fst b2 = 53 := by
    have h := hid
    rw [hk] at h
    rw [hb12] at h
    have h2 : List.range' 52 2 = [52, 53] := rfl
    rw [h2] at h
    simp only [List.map_cons, List.map_nil, List.cons.injEq, and_true] at h
    exact h
  have hlen1 : (Prod.snd b1).length = 50 := by
    apply hdl
    rw [hb12]
    simp
  have hlen2 : (Prod.snd b2).length = 1 := by
    have h := congrArg List.length hj
    rw [hb12] at h
    simp only [List.map_cons, List.map_nil, List.flatten_cons, List.flatten_nil,
      List.length_append, List.length_nil, hS] at h
    omega
  refine ⟨?_, hfail, ?_⟩
  · rw [hb12]
    simp [hids.1, hids.2, hlen1, hlen2]
  · rw [failedFileWritten, hfail]
    rfl

/-- Witness for `main_51_rows_two_batches` at the concrete 51-row table
`rows51` and the all-success oracle. -/
theorem main_51_rows_two_batches_witness :
    (main lookupAllOk rows51).batches.map (fun b => (Prod.fst b, (Prod.snd b).length))
      = [(52, 50), (53, 1)] ∧
    (main lookupAllOk rows51).failed = [] ∧
    failedFileWritten (main lookupAllOk rows51) = false :=
  main_51_rows_two_batches lookupAllOk rows51 (by decide) (fun _ _ _ => rfl)

/-! ## Theorems: GenreEncoder -/

/-- One step of decoding an indicator row. -/
theorem onesOf_cons {α : Type} (a : α) (cl : List α) (x : Nat) (v : List Nat) :
    onesOf (a :: cl) (x :: v) = (if x = 1 then [a] else []) ++ onesOf cl v := by
  simp only [onesOf, List.zip_cons_cons, List.filterMap_cons]
  split <;> simp_all

/-- Decoding the indicator row of `gs` recovers exactly the labels of
`gs` that are among the classes. -/
theorem mem_onesOf_mlbIndicator {α : Type} [DecidableEq α]
    (classes gs : List α) (c : α) :
    c ∈ onesOf classes (mlbIndicator classes gs) ↔ c ∈ classes ∧ c ∈ gs := by
  induction classes with
  | nil => simp [onesOf, mlbIndicator]
  | cons a cl ih =>
    rw [show mlbIndicator (a :: cl) gs
        = (if a ∈ gs then 1 else 0) :: mlbIndicator cl gs from rfl, onesOf_cons]
    by_cases ha : a ∈ gs
    · simp only [ha, if_true, List.mem_append, List.mem_singleton, ih]
      constructor
      · rintro (rfl | ⟨h1, h2⟩)
        · exact ⟨List.mem_cons_self _ _, ha⟩
        · exact ⟨List.mem_cons_of_mem a h1, h2⟩
      · rintro ⟨h1, h2⟩
        rcases List.mem_cons.mp h1 with rfl | h1
        · exact Or.inl rfl
        · exact Or.inr ⟨h1, h2⟩
    · have h01 : ((0 : Nat) = 1) = False := by simp
      simp only [ha, if_false, h01, List.nil_append, ih]
      constructor
      · rintro ⟨h1, h2⟩
        exact ⟨List.mem_cons_of_mem a h1, h2⟩
      · rintro ⟨h1, h2⟩
        rcases List.mem_cons.mp h1 with rfl | h1
        · exact absurd h2 ha
        · exact ⟨h1, h2⟩

/-- Row-wise permutations leave the flattened table a permutation. -/
theorem flatten_perm_of_forall₂ {α : Type} {l l' : List (List α)}
    (h : List.Forall₂ List.Perm l l') : l.flatten.Perm l'.flatten := by
  induction h with
  | nil => rfl
  | cons h1 _ ih => simp only [List.flatten_cons]; exact List.Perm.append h1 ih

/-- The binarizer classes are sorted. -/
theorem mlbClasses_sorted {α : Type} [LinearOrder α] (col : List (List α)) :
    List.Sorted (fun a b => a ≤ b) (mlbClasses col) :=
  List.sorted_insertionSort _ _

/-- The binarizer classes hold no duplicates. -/
theorem mlbClasses_nodup {α : Type} [LinearOrder α] (col : List (List α)) :
    (mlbClasses col).Nodup :=
  ((List.perm_insertionSort _ _).nodup_iff).mpr (List.nodup_dedup _)

/-- A label is a class exactly when some row holds it. -/
theorem mem_mlbClasses {α : Type} [LinearOrder α] (col : List (List α)) (c : α) :
    c ∈ mlbClasses col ↔ c ∈ col.flatten := by
  rw [mlbClasses]
  rw [(List.perm_insertionSort (fun a b => a ≤ b) col.flatten.dedup).mem_iff]
  exact List.mem_dedup

/-- The classes depend only on the label sets of the rows, not on the
order of labels within a row. -/
theorem mlbClasses_eq_of_perm {α : Type} [LinearOrder α]
    {col col' : List (List α)} (h : List.Forall₂ List.Perm col col') :
    mlbClasses col = mlbClasses col' := by
  have hperm : (List.insertionSort (fun a b => a ≤ b) col.flatten.dedup).Perm
      (List.insertionSort (fun a b => a ≤ b) col'.flatten.dedup) :=
    (List.perm_insertionSort _ _).trans
      (((flatten_perm_of_forall₂ h).dedup).trans
        (List.perm_insertionSort _ _).symm)
  exact List.eq_of_perm_of_sorted hperm (mlbClasses_sorted col) (mlbClasses_sorted col')

/-- C5: `encode_genres` round-trip.  For every row of the returned table,
the set of indicator columns holding `1` is exactly the set of genre
labels of that row; the indicator columns are appended in sorted order of
the distinct label set, with no duplicate column; the indicator row of a
genre list depends only on its members, not their order; and permuting
the genres within each input row leaves the indicator columns unchanged. -/
theorem encode_genres_roundtrip {β α : Type} [LinearOrder α]
    (parse : List Char → List α) (rows : List (β × Cell α)) :
    (∀ (o : β) (gs : List α) (v : List Nat),
      (o, gs, v) ∈ (encode_genres parse rows).table →
      ∀ c, c ∈ onesOf (encode_genres parse rows).genreClasses v ↔ c ∈ gs) ∧
    List.Sorted (fun a b => a ≤ b) (encode_genres parse rows).genreClasses ∧
    (encode_genres parse rows).genreClasses.Nodup ∧
    (∀ gs gs' : List α, gs.Perm gs' →
      mlbIndicator (encode_genres parse rows).genreClasses gs
        = mlbIndicator (encode_genres parse rows).genreClasses gs') ∧
    (∀ rows' : List (β × Cell α),
      List.Forall₂ (fun p q => Prod.fst p = Prod.fst q ∧
          (parseCell parse (Prod.snd p)).Perm (parseCell parse (Prod.snd q)))
        rows rows' →
      (encode_genres parse rows).genreClasses
        = (encode_genres parse rows').genreClasses) := by
  refine ⟨?_, mlbClasses_sorted _, mlbClasses_nodup _, ?_, ?_⟩
  · intro o gs v hmem c
    simp only [encode_genres] at hmem
    obtain ⟨p, hp, heq⟩ := List.mem_map.mp hmem
    injection heq with h1 h23
    injection h23 with h2 h3
    subst h1
    subst h2
    subst h3
    show c ∈ onesOf (mlbClasses _) (mlbIndicator (mlbClasses _) p.2) ↔ c ∈ p.2
    rw [mem_onesOf_mlbIndicator]
    constructor
    · exact fun h => h.2
    · intro h
      refine ⟨?_, h⟩
      rw [mem_mlbClasses]
      rw [List.mem_flatten]
      exact ⟨p.2, List.mem_map_of_mem Prod.snd hp, h⟩
  · intro gs gs' hperm
    simp only [mlbIndicator]
    congr 1
    funext c
    exact if_congr hperm.mem_iff rfl rfl
  · intro rows' hf
    show mlbClasses _ = mlbClasses _
    rw [List.map_map, List.map_map]
    apply mlbClasses_eq_of_perm
    rw [List.forall₂_map_left_iff, List.forall₂_map_right_iff]
    exact List.Forall₂.imp (fun a b h => h.2) hf

/-- Witness for `encode_genres_roundtrip`: on a concrete table, decoding
the first row's indicator vector matches membership in its genre list. -/
theorem encode_genres_roundtrip_witness :
    (1 ∈ onesOf (encode_genres parseNatW rowsGenW).genreClasses [1, 1]
      ↔ 1 ∈ [2, 1]) :=
  (encode_genres_roundtrip parseNatW rowsGenW).1 0 [2, 1] [1, 1] (by decide) 1

/-- C10: frame effect of `encode_genres`.  The caller's table is mutated
in place: after the call its genre column holds the parsed genre lists
(modelled by the explicitly returned `mutatedInput` state); every other
pre-existing column is untouched by the mutation; and the returned table
starts with exactly the mutated input's columns, unchanged, with only the
indicator columns appended. -/
theorem encode_genres_frame {β α : Type} [LinearOrder α]
    (parse : List Char → List α) (rows : List (β × Cell α)) :
    (encode_genres parse rows).mutatedInput
      = rows.map (fun p => (Prod.fst p, parseCell parse (Prod.snd p))) ∧
    (encode_genres parse rows).mutatedInput.map Prod.fst = rows.map Prod.fst ∧
    (encode_genres parse rows).table.map
        (fun q => (Prod.fst q, Prod.fst (Prod.snd q)))
      = (encode_genres parse rows).mutatedInput := by
  refine ⟨rfl, ?_, ?_⟩
  · show (rows.map (fun p => (Prod.fst p, parseCell parse (Prod.snd p)))).map
        Prod.fst = rows.map Prod.fst
    rw [List.map_map]
    rfl
  · show ((rows.map (fun p => (Prod.fst p, parseCell parse (Prod.snd p)))).map
        (fun p => (Prod.fst p, Prod.snd p, mlbIndicator _ (Prod.snd p)))).map
        (fun q => (Prod.fst q, Prod.fst (Prod.snd q))) = _
    rw [List.map_map]
    exact List.map_id _

end SongRec
